import Mathlib

/-!
Verification of the chopgrep embedding-indexed chunk store (`src/db.ts` and the
`calculateEmbedding` wrappers in the two CLI entry files).

The TypeScript code drives a SQLite database holding two physically distinct
stores: the `code_chunks` metadata table and the `vec_index` vec0 virtual
table, kept in lockstep by three SQL triggers.  We embed the reachable
database states shallowly: a state is the autoincrement counter plus the row
lists of the two stores, and each exported operation of `db.ts` becomes a Lean
function on states.  Embedding values (`Float32Array` in the source) are
modelled as `List ℚ`; the cosine distance computed by the external sqlite-vec
extension is modelled over ℝ from its documented definition.
-/

set_option maxRecDepth 40000

/-- Fixed embedding dimension, `EMBEDDING_DIM = 384` in `src/db.ts`. -/
def EMBEDDING_DIM : Nat := 384

/-- An input record for insertion, mirroring the `CodeChunkRow` type of
`src/db.ts` (the optional `id` is assigned by the database, so the input
carries only the payload fields). -/
structure CodeChunkRow where
  file_name : String
  file_path : String
  chunk_text : String
  inline_document : Option String
  embedding : List ℚ
deriving DecidableEq

/-- A stored row of the `code_chunks` metadata table: the payload plus the
identity assigned by `INTEGER PRIMARY KEY AUTOINCREMENT`. -/
structure ChunkRecord where
  id : Nat
  file_name : String
  file_path : String
  chunk_text : String
  inline_document : Option String
  embedding : List ℚ
deriving DecidableEq

/-- A row of the `vec_index` vec0 virtual table: `rowid` plus the mirrored
embedding. -/
structure VecEntry where
  rowid : Nat
  embedding : List ℚ
deriving DecidableEq

/-- The database state: the autoincrement counter (`next_id` is the id the
next inserted row receives) and the contents of the two stores in insertion
order. -/
structure DBState where
  next_id : Nat
  code_chunks : List ChunkRecord
  vec_index : List VecEntry
deriving DecidableEq

/-- Failures surfaced by the `db.ts` operations.  `dimensionMismatch got` is
the `Error` thrown by `assertEmbeddingDim` (its message records the offending
length). -/
inductive DBError where
  | dimensionMismatch (got : Nat)
deriving DecidableEq

/-- A fresh database right after schema creation: no rows, and SQLite's
AUTOINCREMENT hands out ids starting from 1. -/
def initialState : DBState := ⟨1, [], []⟩

/-- The helper `assertEmbeddingDim` of `src/db.ts`: throws unless the vector
has length `EMBEDDING_DIM`. -/
def assertEmbeddingDim (arr : List ℚ) : Except DBError Unit :=
  if arr.length = EMBEDDING_DIM then .ok () else .error (.dimensionMismatch arr.length)

/-- Effect of one `INSERT INTO code_chunks ...` statement together with the
`code_chunks_after_insert` trigger, which mirrors `(new.id, new.embedding)`
into `vec_index`.  Returns the new state and the assigned id
(`lastInsertRowid`). -/
def insertChunkRow (st : DBState) (c : CodeChunkRow) : DBState × Nat :=
  let id := st.next_id
  (⟨id + 1,
    st.code_chunks ++ [⟨id, c.file_name, c.file_path, c.chunk_text, c.inline_document, c.embedding⟩],
    st.vec_index ++ [⟨id, c.embedding⟩]⟩, id)

/-- The exported `insertChunk` of `src/db.ts`: `assertEmbeddingDim` runs
first; only if it passes does the SQL INSERT (and its trigger) execute. -/
def insertChunk (st : DBState) (c : CodeChunkRow) : Except DBError (DBState × Nat) :=
  match assertEmbeddingDim c.embedding with
  | .error e => .error e
  | .ok _ => .ok (insertChunkRow st c)

/-- The database state a caller observes after calling `insertChunk`: on a
thrown error the exception propagates and no statement has run, so the state
is unchanged. -/
def runInsertChunk (st : DBState) (c : CodeChunkRow) : DBState :=
  match insertChunk st c with
  | .ok p => p.1
  | .error _ => st

/-- The body of the `insertMany` transaction of `bulkInsertChunks`, statement
by statement: for each record of the batch, `assertEmbeddingDim` then the
prepared INSERT (with its trigger).  The result is the raw state reached when
the body finishes or throws (possibly mid-batch: earlier rows of the batch
have already run). -/
def insertBatchRaw (st : DBState) : List CodeChunkRow → DBState × Option DBError
  | [] => (st, none)
  | c :: rest =>
    match assertEmbeddingDim c.embedding with
    | .error e => (st, some e)
    | .ok _ => insertBatchRaw (insertChunkRow st c).1 rest

/-- SQLite transaction semantics of `db.transaction(...)` in bun:sqlite: the
body runs inside BEGIN/COMMIT, and if it throws, ROLLBACK restores the state
from before the transaction. -/
def runTransaction (st : DBState) (body : DBState → DBState × Option DBError) :
    DBState × Option DBError :=
  match body st with
  | (st', none) => (st', none)
  | (_, some e) => (st, some e)

/-- The batching of the `for (let i = 0; i < chunks.length; i += batchSize)`
loop of `bulkInsertChunks`: consecutive `slice(i, i + batchSize)` windows of
the input, in order. -/
def chunksOf (n : Nat) : List CodeChunkRow → List (List CodeChunkRow)
  | [] => []
  | c :: l => (c :: l.take (n - 1)) :: chunksOf n (l.drop (n - 1))
termination_by l => l.length
decreasing_by simp [List.length_drop]; omega

/-- Executes the batch list: each batch is one transaction; a throwing batch
is rolled back and the exception propagates, aborting the loop (earlier
committed batches are untouched). -/
def runBatches (st : DBState) : List (List CodeChunkRow) → DBState × Option DBError
  | [] => (st, none)
  | b :: bs =>
    match runTransaction st (fun s => insertBatchRaw s b) with
    | (st', none) => runBatches st' bs
    | (st', some e) => (st', some e)

/-- The exported `bulkInsertChunks(chunks, batchSize)` of `src/db.ts`
(`batchSize` defaults to 500 at the call sites). -/
def bulkInsertChunks (st : DBState) (chunks : List CodeChunkRow) (batchSize : Nat) :
    DBState × Option DBError :=
  runBatches st (chunksOf batchSize chunks)

/-- Effect of a storage-level `DELETE FROM code_chunks WHERE id = ?` together
with the `code_chunks_after_delete` trigger of `src/db.ts`, which fires once
per deleted row and removes the `vec_index` row with `rowid = old.id`. -/
def deleteChunk (st : DBState) (i : Nat) : DBState :=
  let deleted := st.code_chunks.filter (fun c => c.id == i)
  { st with
    code_chunks := st.code_chunks.filter (fun c => !(c.id == i)),
    vec_index :=
      deleted.foldl (fun ve c => ve.filter (fun v => !(v.rowid == c.id))) st.vec_index }

/-- Replacement of the payload of a row (an UPDATE keeps the primary key). -/
def applyRow (r : ChunkRecord) (c : CodeChunkRow) : ChunkRecord :=
  ⟨r.id, c.file_name, c.file_path, c.chunk_text, c.inline_document, c.embedding⟩

/-- Effect of a storage-level `UPDATE code_chunks SET ... WHERE id = ?`
together with the `code_chunks_after_update` trigger of `src/db.ts`, which
fires once per updated row and first deletes the `vec_index` row with
`rowid = old.id`, then inserts `(new.id, new.embedding)`. -/
def updateChunk (st : DBState) (i : Nat) (c : CodeChunkRow) : DBState :=
  let matched := st.code_chunks.filter (fun r => r.id == i)
  { st with
    code_chunks := st.code_chunks.map (fun r => if r.id == i then applyRow r c else r),
    vec_index :=
      matched.foldl
        (fun ve r => ve.filter (fun v => !(v.rowid == r.id)) ++ [⟨r.id, c.embedding⟩])
        st.vec_index }

/-- The payload of a stored row (forgetting the assigned id). -/
def rowOf (c : ChunkRecord) : CodeChunkRow :=
  ⟨c.file_name, c.file_path, c.chunk_text, c.inline_document, c.embedding⟩

/-- The `SearchResult` type of `src/db.ts`: the joined `code_chunks` columns
plus the distance reported by the vector index. -/
structure SearchResult where
  id : Nat
  file_name : String
  file_path : String
  chunk_text : String
  inline_document : Option String
  distance : ℝ

/-- A stored vector read as a point of 384-dimensional Euclidean space
(positions beyond the list length read as 0; every vector the check admits
has length exactly `EMBEDDING_DIM`). -/
noncomputable def toEuc (a : List ℚ) : EuclideanSpace ℝ (Fin EMBEDDING_DIM) :=
  fun i => ((a.getD i.val 0 : ℚ) : ℝ)

/-- Modelled from the spec: the cosine distance computed by the external
sqlite-vec extension for `distance_metric=cosine` — 1 minus the cosine
similarity of the two vectors (glossary of the spec; 0 = identical direction,
2 = opposite).  A zero vector makes the similarity term 0 (division by zero
is 0 in ℝ), giving distance 1. -/
noncomputable def cosineDist (a b : List ℚ) : ℝ :=
  1 - (inner (toEuc a) (toEuc b) : ℝ) / (‖toEuc a‖ * ‖toEuc b‖)

/-- Comparison of scored index rows by their distance column, the `ORDER BY
distance` / KNN order of the search query. -/
def distLE (p q : VecEntry × ℝ) : Prop := p.2 ≤ q.2

/-- Decidability of the distance comparison (classical: real comparison). -/
noncomputable def distLEDec : DecidableRel distLE :=
  fun _ _ => Classical.propDecidable _

/-- Sorting of scored index rows by ascending distance. -/
noncomputable def sortByDist (l : List (VecEntry × ℝ)) : List (VecEntry × ℝ) :=
  @List.insertionSort _ distLE distLEDec l

instance : IsTotal (VecEntry × ℝ) distLE :=
  ⟨fun a b => le_total a.2 b.2⟩

instance : IsTrans (VecEntry × ℝ) distLE :=
  ⟨fun _ _ _ h1 h2 => le_trans h1 h2⟩

/-- The SQL query of `searchSimilar` in `src/db.ts`: the vec0 KNN clause
(`embedding MATCH ? AND k = ?`) scores every index row by cosine distance
against the query and keeps the `k` nearest in ascending distance order; the
`JOIN code_chunks c ON c.id = v.rowid` keeps only matches whose metadata row
exists (`id` is the primary key, so `find?` returns the unique row); `ORDER
BY distance` orders ascending (the KNN output already is); `LIMIT ?` caps the
result at `k`. -/
noncomputable def searchRows (st : DBState) (q : List ℚ) (k : Nat) : List SearchResult :=
  let scored := st.vec_index.map (fun v => (v, cosineDist q v.embedding))
  let knn := (sortByDist scored).take k
  let joined := knn.filterMap (fun p =>
    (st.code_chunks.find? (fun c => c.id == p.1.rowid)).map (fun c =>
      ⟨c.id, c.file_name, c.file_path, c.chunk_text, c.inline_document, p.2⟩))
  joined.take k

/-- The exported `searchSimilar` of `src/db.ts`: `assertEmbeddingDim` on the
query, then the KNN-join-order-limit query. -/
noncomputable def searchSimilar (st : DBState) (q : List ℚ) (k : Nat) :
    Except DBError (List SearchResult) :=
  match assertEmbeddingDim q with
  | .error e => .error e
  | .ok _ => .ok (searchRows st q k)

/-- The schema-level state touched by the DDL statements run at module load
of `src/db.ts`: whether the `code_chunks` table exists, the declared
dimension of the `vec_index` vec0 table when it exists, and whether each of
the three triggers exists. -/
structure SchemaState where
  has_code_chunks : Bool
  vec_index_dim : Option Nat
  has_trig_insert : Bool
  has_trig_delete : Bool
  has_trig_update : Bool
deriving DecidableEq

/-- `CREATE TABLE IF NOT EXISTS code_chunks ...`: creates the table when
absent, silent no-op when present. -/
def execCreateCodeChunks (s : SchemaState) : SchemaState :=
  { s with has_code_chunks := true }

/-- `CREATE VIRTUAL TABLE IF NOT EXISTS vec_index USING vec0(embedding
float[384] distance_metric=cosine)`: when a table named `vec_index` already
exists, SQLite's IF NOT EXISTS makes the statement a silent no-op before the
vec0 module is even consulted — the existing declared dimension, whatever it
is, is left untouched and no error is raised.  When absent, the table is
created with dimension `EMBEDDING_DIM`. -/
def execCreateVecIndex (s : SchemaState) : SchemaState :=
  match s.vec_index_dim with
  | some _ => s
  | none => { s with vec_index_dim := some EMBEDDING_DIM }

/-- `CREATE TRIGGER IF NOT EXISTS ...` for the three synchronization
triggers. -/
def execCreateTriggers (s : SchemaState) : SchemaState :=
  { s with has_trig_insert := true, has_trig_delete := true, has_trig_update := true }

/-- The schema-establishment sequence run at every module load of
`src/db.ts` (the five `db.exec` DDL statements in order).  Every statement is
`IF NOT EXISTS`, so none of them fails on an existing object. -/
def ensureSchema (s : SchemaState) : Except DBError SchemaState :=
  .ok (execCreateTriggers (execCreateVecIndex (execCreateCodeChunks s)))

/-- Outcome of one call to the external `embeddingPipeline` collaborator as
observed by `calculateEmbedding`: either the call throws, or it returns an
output object whose `data` field is absent or a numeric array. -/
inductive PipelineOutcome where
  | throws (msg : String)
  | returns (data : Option (List ℚ))

/-- The `calculateEmbedding` wrapper of the first CLI entry file
(`chopper-grep.ts` variant): a thrown pipeline error is caught and replaced by
`new Float32Array(EMBEDDING_DIM)` (an all-zero vector); a dimension mismatch
throws inside the same `try`, so it is caught by the same `catch` and also
yields the zero vector; absent `data` yields the zero vector. -/
def calculateEmbeddingV0 (r : PipelineOutcome) : List ℚ :=
  match r with
  | .throws _ => List.replicate EMBEDDING_DIM 0
  | .returns none => List.replicate EMBEDDING_DIM 0
  | .returns (some d) =>
    if d.length ≠ EMBEDDING_DIM then List.replicate EMBEDDING_DIM 0 else d

/-- The truncate-or-pad of the second CLI entry file: a zero-filled
`Float32Array(EMBEDDING_DIM)` whose first `min d.length EMBEDDING_DIM`
entries are copied from the pipeline output. -/
def truncateOrPad (d : List ℚ) : List ℚ :=
  d.take EMBEDDING_DIM ++ List.replicate (EMBEDDING_DIM - d.length) 0

/-- The `calculateEmbedding` wrapper of the second CLI entry file: a thrown
pipeline error is caught and replaced by the all-zero vector; a dimension
mismatch is truncated or padded; absent `data` yields the zero vector. -/
def calculateEmbeddingV1 (r : PipelineOutcome) : List ℚ :=
  match r with
  | .throws _ => List.replicate EMBEDDING_DIM 0
  | .returns none => List.replicate EMBEDDING_DIM 0
  | .returns (some d) =>
    if d.length ≠ EMBEDDING_DIM then truncateOrPad d else d

/-- The rows of `vec_index` carrying a given identity. -/
def vecFor (st : DBState) (i : Nat) : List VecEntry :=
  st.vec_index.filter (fun v => v.rowid == i)

/-- The rows of `code_chunks` carrying a given identity. -/
def chunksFor (st : DBState) (i : Nat) : List ChunkRecord :=
  st.code_chunks.filter (fun c => c.id == i)

/-- The bijection invariant of the spec: every chunk row has exactly one
vector-index entry with the same identity (and that entry carries the same
embedding), and every vector-index entry has exactly one chunk row with its
identity. -/
def SyncInv (st : DBState) : Prop :=
  (∀ c ∈ st.code_chunks, vecFor st c.id = [⟨c.id, c.embedding⟩]) ∧
  (∀ v ∈ st.vec_index, (chunksFor st v.rowid).length = 1)

/-- Well-formedness of a reachable database state: the bijection invariant
plus freshness of the autoincrement counter. -/
def WF (st : DBState) : Prop :=
  SyncInv st ∧ (∀ c ∈ st.code_chunks, c.id < st.next_id) ∧
    (∀ v ∈ st.vec_index, v.rowid < st.next_id)

/-- A completed storage-level transaction against the store: a single
insert, a bulk insert, a delete or an update. -/
inductive Op where
  | insertOne (c : CodeChunkRow)
  | bulkInsert (cs : List CodeChunkRow) (batchSize : Nat)
  | deleteRow (i : Nat)
  | updateRow (i : Nat) (c : CodeChunkRow)

/-- The state after one completed transaction (failed operations leave the
caller-observed state unchanged). -/
def applyOp (st : DBState) : Op → DBState
  | .insertOne c => runInsertChunk st c
  | .bulkInsert cs n => (bulkInsertChunks st cs n).1
  | .deleteRow i => deleteChunk st i
  | .updateRow i c => updateChunk st i c

/-- The state after a sequence of completed transactions from a fresh
database. -/
def applyOps (ops : List Op) : DBState :=
  ops.foldl applyOp initialState

/-- A valid embedding: 384 zeros. -/
def q384 : List ℚ := List.replicate EMBEDDING_DIM 0

/-- A wrong-dimension embedding: 383 entries. -/
def q383 : List ℚ := List.replicate 383 0

/-- A valid input record. -/
def rowGood : CodeChunkRow := ⟨"f", "p", "t", none, q384⟩

/-- An input record with a wrong-dimension embedding. -/
def rowBad : CodeChunkRow := ⟨"f", "p", "t", none, q383⟩

/-- The five records of the spec's bulk-insert scenario: the record at index
4 has a wrong-dimension embedding, all others are valid. -/
def scenarioRows : List CodeChunkRow :=
  [⟨"f0", "p0", "c0", none, q384⟩,
   ⟨"f1", "p1", "c1", none, q384⟩,
   ⟨"f2", "p2", "c2", none, q384⟩,
   ⟨"f3", "p3", "c3", none, q384⟩,
   ⟨"f4", "p4", "c4", none, q383⟩]

/-- A state with an orphaned vector-index entry: a `vec_index` row whose
identity has no `code_chunks` row (reachable only under concurrent deletion
racing a query). -/
def orphanState : DBState := ⟨2, [], [⟨1, q384⟩]⟩

/-- A well-formed one-row state used to exercise delete and update. -/
def syncState1 : DBState := ⟨2, [⟨1, "f", "p", "t", none, [1]⟩], [⟨1, [1]⟩]⟩

/-- A replacement payload used to exercise update. -/
def updRow : CodeChunkRow := ⟨"g", "q", "u", none, [2]⟩

/-- C1: for every embedding whose length is not 384, `insertChunk` fails with
the dimension-mismatch error and `searchSimilar` fails with the
dimension-mismatch error; for every embedding of length exactly 384, neither
operation fails. -/
theorem claim1_dimension_check (st : DBState) (c : CodeChunkRow) (q : List ℚ) (k : Nat) :
    (c.embedding.length ≠ EMBEDDING_DIM →
      insertChunk st c = .error (.dimensionMismatch c.embedding.length)) ∧
    (c.embedding.length = EMBEDDING_DIM → ∃ r, insertChunk st c = .ok r) ∧
    (q.length ≠ EMBEDDING_DIM →
      searchSimilar st q k = .error (.dimensionMismatch q.length)) ∧
    (q.length = EMBEDDING_DIM → ∃ rs, searchSimilar st q k = .ok rs) := by
  refine ⟨fun h => ?_, fun h => ?_, fun h => ?_, fun h => ?_⟩
  · simp [insertChunk, assertEmbeddingDim, h]
  · exact ⟨insertChunkRow st c, by simp [insertChunk, assertEmbeddingDim, h]⟩
  · simp [searchSimilar, assertEmbeddingDim, h]
  · exact ⟨searchRows st q k, by simp [searchSimilar, assertEmbeddingDim, h]⟩

/-- Witness for C1 at concrete inputs: a 383-dimensional embedding is
rejected by both operations, a 384-dimensional one is accepted by both. -/
theorem claim1_dimension_check_witness :
    insertChunk initialState rowBad = .error (.dimensionMismatch rowBad.embedding.length) ∧
    (∃ r, insertChunk initialState rowGood = .ok r) ∧
    searchSimilar initialState q383 5 = .error (.dimensionMismatch q383.length) ∧
    (∃ rs, searchSimilar initialState q384 5 = .ok rs) :=
  ⟨(claim1_dimension_check initialState rowBad q383 5).1 (by decide),
   (claim1_dimension_check initialState rowGood q383 5).2.1 (by decide),
   (claim1_dimension_check initialState rowGood q383 5).2.2.1 (by decide),
   (claim1_dimension_check initialState rowGood q384 5).2.2.2 (by decide)⟩

/-- C10: on a wrong-dimension record the check throws before any SQL
statement runs, so the failed `insertChunk` call leaves both stores exactly
unchanged. -/
theorem claim10_insert_atomic_on_error (st : DBState) (c : CodeChunkRow)
    (h : c.embedding.length ≠ EMBEDDING_DIM) :
    insertChunk st c = .error (.dimensionMismatch c.embedding.length) ∧
    (runInsertChunk st c).code_chunks = st.code_chunks ∧
    (runInsertChunk st c).vec_index = st.vec_index := by
  have he : insertChunk st c = .error (.dimensionMismatch c.embedding.length) := by
    simp [insertChunk, assertEmbeddingDim, h]
  exact ⟨he, by simp [runInsertChunk, he], by simp [runInsertChunk, he]⟩

/-- Witness for C10 at a concrete wrong-dimension record. -/
theorem claim10_insert_atomic_on_error_witness :
    insertChunk initialState rowBad = .error (.dimensionMismatch rowBad.embedding.length) ∧
    (runInsertChunk initialState rowBad).code_chunks = initialState.code_chunks ∧
    (runInsertChunk initialState rowBad).vec_index = initialState.vec_index :=
  claim10_insert_atomic_on_error initialState rowBad (by decide)

/-- C9: when the embedding pipeline collaborator throws, both
`calculateEmbedding` wrappers catch the failure and return the all-zero
vector of length 384 instead of propagating it. -/
theorem claim9_zero_vector_on_failure (msg : String) :
    calculateEmbeddingV0 (.throws msg) = List.replicate EMBEDDING_DIM 0 ∧
    calculateEmbeddingV1 (.throws msg) = List.replicate EMBEDDING_DIM 0 ∧
    (List.replicate EMBEDDING_DIM (0 : ℚ)).length = EMBEDDING_DIM ∧
    (∀ x ∈ List.replicate EMBEDDING_DIM (0 : ℚ), x = 0) := by
  exact ⟨rfl, rfl, by simp, by simp⟩

/-- C5 counterexample: with the vector-index structure already existing at
dimension 256 ≠ 384, schema establishment does not fail — every DDL
statement is `IF NOT EXISTS`, so the run succeeds and leaves the existing
dimension untouched, contradicting the claimed fatal failure. -/
theorem claim5_counterexample :
    ensureSchema ⟨true, some 256, true, true, true⟩ =
      .ok ⟨true, some 256, true, true, true⟩ := rfl

/-- C5 amended: schema establishment is idempotent across process starts —
it always succeeds, creates the table, index and triggers when absent, and
when the vector-index structure already exists (with any dimension, equal to
384 or not) it is silently left unchanged; no failure is raised at
schema-establishment time. -/
theorem claim5_ensure_schema_idempotent (s : SchemaState) :
    ∃ s', ensureSchema s = .ok s' ∧ ensureSchema s' = .ok s' ∧
      s'.has_code_chunks = true ∧ s'.has_trig_insert = true ∧
      s'.has_trig_delete = true ∧ s'.has_trig_update = true ∧
      s'.vec_index_dim = some (s.vec_index_dim.getD EMBEDDING_DIM) := by
  cases s with
  | mk a d ti td tu =>
    cases d with
    | none => exact ⟨_, rfl, rfl, rfl, rfl, rfl, rfl, rfl⟩
    | some n => exact ⟨_, rfl, rfl, rfl, rfl, rfl, rfl, rfl⟩

/-- The slicing loop of `bulkInsertChunks` covers the whole input in order:
flattening the batches gives back the input sequence. -/
theorem chunksOf_flatten (n : Nat) (l : List CodeChunkRow) : (chunksOf n l).flatten = l := by
  induction l using chunksOf.induct n with
  | case1 => simp [chunksOf]
  | case2 c l ih => rw [chunksOf]; simp [ih]

/-- Each batch produced by the slicing loop has at most `batchSize` records. -/
theorem chunksOf_length_le (n : Nat) (hn : 0 < n) (l : List CodeChunkRow) :
    ∀ b ∈ chunksOf n l, b.length ≤ n := by
  induction l using chunksOf.induct n with
  | case1 => simp [chunksOf]
  | case2 c l ih =>
    rw [chunksOf]
    intro b hb
    rcases List.mem_cons.mp hb with h | h
    · subst h
      simp only [List.length_cons, List.length_take]
      omega
    · exact ih b h

/-- A batch body that runs to completion has inserted exactly the records of
the batch, in order, into the metadata table, and their embeddings, in order,
into the vector index. -/
theorem insertBatchRaw_ok (b : List CodeChunkRow) (st st' : DBState)
    (h : insertBatchRaw st b = (st', none)) :
    st'.code_chunks.map rowOf = st.code_chunks.map rowOf ++ b ∧
    st'.vec_index.map VecEntry.embedding
      = st.vec_index.map VecEntry.embedding ++ b.map CodeChunkRow.embedding := by
  induction b generalizing st with
  | nil =>
    simp only [insertBatchRaw, Prod.mk.injEq] at h
    obtain ⟨h1, -⟩ := h
    subst h1
    simp
  | cons c t ih =>
    simp only [insertBatchRaw] at h
    cases hd : assertEmbeddingDim c.embedding with
    | error e => rw [hd] at h; cases h
    | ok u =>
      rw [hd] at h
      have := ih _ h
      simp only [insertChunkRow, List.map_append, List.map_cons, List.map_nil] at this
      rw [this.1, this.2]
      constructor
      · simp [rowOf]
      · simp

/-- A transaction whose body throws is rolled back: the resulting state is
the state from before the transaction. -/
theorem runTransaction_err (st st' : DBState) (f : DBState → DBState × Option DBError)
    (e : DBError) (h : runTransaction st f = (st', some e)) : st' = st := by
  unfold runTransaction at h
  cases hf : f st with
  | mk s o =>
    rw [hf] at h
    cases o with
    | none => cases h
    | some e' => cases h; rfl

/-- When the batch loop stops with an error, the batch list splits into a
fully committed run of leading batches (producing the final state), the
failing batch (which was rolled back, leaving the final state unchanged), and
untouched trailing batches. -/
theorem runBatches_err (bs : List (List CodeChunkRow)) (st st' : DBState) (e : DBError)
    (h : runBatches st bs = (st', some e)) :
    ∃ pre b suf, bs = pre ++ b :: suf ∧ runBatches st pre = (st', none) ∧
      runTransaction st' (fun s => insertBatchRaw s b) = (st', some e) := by
  induction bs generalizing st with
  | nil => cases h
  | cons b bs ih =>
    simp only [runBatches] at h
    cases ht : runTransaction st (fun s => insertBatchRaw s b) with
    | mk s1 o =>
      rw [ht] at h
      cases o with
      | none =>
        obtain ⟨pre, b', suf, hsplit, hpre, hfail⟩ := ih s1 h
        exact ⟨b :: pre, b', suf, by rw [hsplit]; rfl,
          by simp only [runBatches, ht]; exact hpre, hfail⟩
      | some e' =>
        simp only [Prod.mk.injEq, Option.some.injEq] at h
        obtain ⟨h1, h2⟩ := h
        have hst : s1 = st := runTransaction_err st s1 _ e' ht
        subst h1 h2 hst
        exact ⟨[], b, bs, rfl, rfl, ht⟩

/-- A transaction that commits is exactly its body run on the pre-state. -/
theorem runTransaction_ok (st st' : DBState) (f : DBState → DBState × Option DBError)
    (h : runTransaction st f = (st', none)) : f st = (st', none) := by
  unfold runTransaction at h
  cases hf : f st with
  | mk s o =>
    rw [hf] at h
    cases o with
    | none =>
      simp only [Prod.mk.injEq] at h
      rw [h.1]
    | some e' => simp at h

/-- C3: `bulkInsertChunks` partitions the input in order into consecutive
batches of at most `batchSize` records; each batch commits atomically (a
throwing batch is rolled back entirely, a committing batch inserts all of its
records into both stores); when a batch fails, all earlier batches remain
committed and the exception aborts the loop.  Concretely, for `batchSize = 2`
over the five scenario records where only index 4 has a wrong dimension,
records 0 to 3 are committed in both stores and record 4 is in neither. -/
theorem claim3_bulk_batches (st : DBState) (cs : List CodeChunkRow) (n : Nat) (hn : 0 < n) :
    ((chunksOf n cs).flatten = cs) ∧
    (∀ b ∈ chunksOf n cs, b.length ≤ n) ∧
    (∀ b st' e, runTransaction st (fun s => insertBatchRaw s b) = (st', some e) → st' = st) ∧
    (∀ b st', runTransaction st (fun s => insertBatchRaw s b) = (st', none) →
      st'.code_chunks.map rowOf = st.code_chunks.map rowOf ++ b ∧
      st'.vec_index.map VecEntry.embedding
        = st.vec_index.map VecEntry.embedding ++ b.map CodeChunkRow.embedding) ∧
    (∀ bs st' e, runBatches st bs = (st', some e) →
      ∃ pre b suf, bs = pre ++ b :: suf ∧ runBatches st pre = (st', none) ∧
        runTransaction st' (fun s => insertBatchRaw s b) = (st', some e)) ∧
    (bulkInsertChunks initialState scenarioRows 2
      = (⟨5, [⟨1, "f0", "p0", "c0", none, q384⟩, ⟨2, "f1", "p1", "c1", none, q384⟩,
              ⟨3, "f2", "p2", "c2", none, q384⟩, ⟨4, "f3", "p3", "c3", none, q384⟩],
          [⟨1, q384⟩, ⟨2, q384⟩, ⟨3, q384⟩, ⟨4, q384⟩]⟩,
         some (.dimensionMismatch 383))) ∧
    (∀ c ∈ (bulkInsertChunks initialState scenarioRows 2).1.code_chunks,
      c.chunk_text ≠ "c4" ∧ c.embedding ≠ q383) ∧
    (∀ v ∈ (bulkInsertChunks initialState scenarioRows 2).1.vec_index, v.embedding ≠ q383) := by
  have hch : chunksOf 2 scenarioRows =
      [[⟨"f0", "p0", "c0", none, q384⟩, ⟨"f1", "p1", "c1", none, q384⟩],
       [⟨"f2", "p2", "c2", none, q384⟩, ⟨"f3", "p3", "c3", none, q384⟩],
       [⟨"f4", "p4", "c4", none, q383⟩]] := by
    simp [chunksOf, scenarioRows]
  have hsc : bulkInsertChunks initialState scenarioRows 2
      = (⟨5, [⟨1, "f0", "p0", "c0", none, q384⟩, ⟨2, "f1", "p1", "c1", none, q384⟩,
              ⟨3, "f2", "p2", "c2", none, q384⟩, ⟨4, "f3", "p3", "c3", none, q384⟩],
          [⟨1, q384⟩, ⟨2, q384⟩, ⟨3, q384⟩, ⟨4, q384⟩]⟩,
         some (.dimensionMismatch 383)) := by
    unfold bulkInsertChunks
    rw [hch]
    decide
  refine ⟨chunksOf_flatten n cs, chunksOf_length_le n hn cs,
    fun b st' e h => runTransaction_err st st' _ e h,
    fun b st' h => ?_,
    fun bs st' e h => runBatches_err bs st st' e h,
    hsc, ?_, ?_⟩
  · exact insertBatchRaw_ok b st st' (runTransaction_ok st st' _ h)
  · rw [hsc]
    decide
  · rw [hsc]
    decide

/-- Witness for C3 at the scenario inputs, discharging the positive batch
size hypothesis at `batchSize = 2`. -/
theorem claim3_bulk_batches_witness :
    (chunksOf 2 scenarioRows).flatten = scenarioRows :=
  (claim3_bulk_batches initialState scenarioRows 2 (by decide)).1

/-- Cosine distance is non-negative: the cosine similarity term never
exceeds 1 (Cauchy-Schwarz), and a zero denominator yields distance 1. -/
theorem cosineDist_nonneg (a b : List ℚ) : 0 ≤ cosineDist a b := by
  unfold cosineDist
  rcases eq_or_ne (‖toEuc a‖ * ‖toEuc b‖) 0 with h | h
  · rw [h, div_zero]
    norm_num
  · have hnn : 0 ≤ ‖toEuc a‖ * ‖toEuc b‖ := mul_nonneg (norm_nonneg _) (norm_nonneg _)
    have hle : (inner (toEuc a) (toEuc b) : ℝ) ≤ ‖toEuc a‖ * ‖toEuc b‖ :=
      real_inner_le_norm _ _
    have hd : (inner (toEuc a) (toEuc b) : ℝ) / (‖toEuc a‖ * ‖toEuc b‖) ≤ 1 :=
      div_le_one_of_le₀ hle hnn
    linarith

/-- The KNN ordering is sorted by ascending distance. -/
theorem sortByDist_pairwise (l : List (VecEntry × ℝ)) : (sortByDist l).Pairwise distLE :=
  @List.sorted_insertionSort _ distLE distLEDec _ _ l

/-- Sorting by distance keeps exactly the scored rows. -/
theorem sortByDist_mem {l : List (VecEntry × ℝ)} {p : VecEntry × ℝ} :
    p ∈ sortByDist l ↔ p ∈ l :=
  (@List.perm_insertionSort _ distLE distLEDec l).mem_iff

/-- Every search result row comes from a metadata row (whose fields it
copies) joined with a vector-index entry of the same identity (whose cosine
distance against the query it reports). -/
theorem searchRows_mem {st : DBState} {q : List ℚ} {k : Nat} {r : SearchResult}
    (h : r ∈ searchRows st q k) :
    (∃ c ∈ st.code_chunks, c.id = r.id ∧ c.file_name = r.file_name ∧
      c.file_path = r.file_path ∧ c.chunk_text = r.chunk_text ∧
      c.inline_document = r.inline_document) ∧
    (∃ v ∈ st.vec_index, v.rowid = r.id ∧ r.distance = cosineDist q v.embedding) := by
  unfold searchRows at h
  have h1 := List.mem_of_mem_take h
  obtain ⟨p, hp, hmap⟩ := List.mem_filterMap.mp h1
  obtain ⟨c, hfind, hr⟩ := Option.map_eq_some'.mp hmap
  have hc : c ∈ st.code_chunks := List.mem_of_find?_eq_some hfind
  have hid' : c.id = p.1.rowid := by
    have hid := List.find?_some hfind
    simpa using hid
  have hpv : p ∈ st.vec_index.map (fun v => (v, cosineDist q v.embedding)) :=
    sortByDist_mem.mp (List.mem_of_mem_take hp)
  obtain ⟨v, hv, hpv'⟩ := List.mem_map.mp hpv
  subst hr
  subst hpv'
  exact ⟨⟨c, hc, rfl, rfl, rfl, rfl, rfl⟩, ⟨v, hv, hid'.symm, rfl⟩⟩

/-- Soundness of a successful search, lifted through the dimension check. -/
theorem searchSimilar_ok_mem {st : DBState} {q : List ℚ} {k : Nat} {rs : List SearchResult}
    (h : searchSimilar st q k = .ok rs) {r : SearchResult} (hr : r ∈ rs) :
    (∃ c ∈ st.code_chunks, c.id = r.id ∧ c.file_name = r.file_name ∧
      c.file_path = r.file_path ∧ c.chunk_text = r.chunk_text ∧
      c.inline_document = r.inline_document) ∧
    (∃ v ∈ st.vec_index, v.rowid = r.id ∧ r.distance = cosineDist q v.embedding) := by
  unfold searchSimilar at h
  cases hd : assertEmbeddingDim q with
  | error e => rw [hd] at h; cases h
  | ok u =>
    rw [hd] at h
    simp only [Except.ok.injEq] at h
    subst h
    exact searchRows_mem hr

/-- C4: for every query vector of length 384 and every `k`, the search
succeeds and returns at most `k` results whose distances are non-negative and
non-decreasing from first to last. -/
theorem claim4_search_sorted (st : DBState) (q : List ℚ) (k : Nat)
    (hq : q.length = EMBEDDING_DIM) :
    ∃ rs, searchSimilar st q k = .ok rs ∧ rs.length ≤ k ∧
      rs.Pairwise (fun a b => a.distance ≤ b.distance) ∧
      (∀ r ∈ rs, 0 ≤ r.distance) := by
  refine ⟨searchRows st q k, by simp [searchSimilar, assertEmbeddingDim, hq], ?_, ?_, ?_⟩
  · exact List.length_take_le k _
  · have h1 : (sortByDist (st.vec_index.map
        (fun v => (v, cosineDist q v.embedding)))).Pairwise distLE :=
      sortByDist_pairwise _
    have h2 : ((sortByDist (st.vec_index.map
        (fun v => (v, cosineDist q v.embedding)))).take k).Pairwise distLE :=
      List.Pairwise.sublist (List.take_sublist k _) h1
    have h3 := List.Pairwise.filterMap
      (S := fun (a b : SearchResult) => a.distance ≤ b.distance)
      (fun p => (st.code_chunks.find? (fun c => c.id == p.1.rowid)).map (fun c =>
        ⟨c.id, c.file_name, c.file_path, c.chunk_text, c.inline_document, p.2⟩))
      ?_ h2
    · exact List.Pairwise.sublist (List.take_sublist k _) h3
    · intro a a' hab x hx y hy
      obtain ⟨c1, hc1, hx'⟩ := Option.map_eq_some'.mp hx
      obtain ⟨c2, hc2, hy'⟩ := Option.map_eq_some'.mp hy
      subst hx' hy'
      exact hab
  · intro r hr
    obtain ⟨-, v, hv, -, hd⟩ := searchRows_mem hr
    rw [hd]
    exact cosineDist_nonneg q v.embedding

/-- Witness for C4 at a concrete valid query over the fresh database. -/
theorem claim4_witness :
    ∃ rs, searchSimilar initialState q384 5 = .ok rs ∧ rs.length ≤ 5 ∧
      rs.Pairwise (fun a b => a.distance ≤ b.distance) ∧
      (∀ r ∈ rs, 0 ≤ r.distance) :=
  claim4_search_sorted initialState q384 5 (by decide)


/-- C8: a successful search never fails on a vector-index match without a
metadata row; every returned result is backed by an existing metadata row,
so an orphaned index entry is silently excluded. -/
theorem claim8_search_orphans (st : DBState) (q : List ℚ) (k : Nat)
    (hq : q.length = EMBEDDING_DIM) :
    ∃ rs, searchSimilar st q k = .ok rs ∧
      ∀ r ∈ rs, ∃ c ∈ st.code_chunks, c.id = r.id ∧ c.file_name = r.file_name ∧
        c.file_path = r.file_path ∧ c.chunk_text = r.chunk_text ∧
        c.inline_document = r.inline_document :=
  ⟨searchRows st q k, by simp [searchSimilar, assertEmbeddingDim, hq],
    fun r hr => (searchRows_mem hr).1⟩

/-- Witness for C8 over a state holding an orphaned vector-index entry. -/
theorem claim8_witness :
    ∃ rs, searchSimilar orphanState q384 5 = .ok rs ∧
      ∀ r ∈ rs, ∃ c ∈ orphanState.code_chunks, c.id = r.id ∧ c.file_name = r.file_name ∧
        c.file_path = r.file_path ∧ c.chunk_text = r.chunk_text ∧
        c.inline_document = r.inline_document :=
  claim8_search_orphans orphanState q384 5 (by decide)

/-- Under the bijection invariant, a given identity matches either no
metadata row or exactly one (which then carries that identity). -/
theorem chunksFor_sub {st : DBState} (hs : SyncInv st) (i : Nat) :
    st.code_chunks.filter (fun c => c.id == i) = [] ∨
    ∃ r, st.code_chunks.filter (fun c => c.id == i) = [r] ∧ r.id = i := by
  cases hf : st.code_chunks.filter (fun c => c.id == i) with
  | nil => exact Or.inl rfl
  | cons r rest =>
    right
    have hrmem : r ∈ st.code_chunks.filter (fun c => c.id == i) := by
      rw [hf]; exact List.mem_cons_self _ _
    have hrc : r ∈ st.code_chunks := (List.mem_filter.mp hrmem).1
    have hri : r.id = i := by
      have := (List.mem_filter.mp hrmem).2
      simpa using this
    have hv := hs.1 r hrc
    have hvmem : (⟨r.id, r.embedding⟩ : VecEntry) ∈ st.vec_index := by
      have hm : (⟨r.id, r.embedding⟩ : VecEntry) ∈ vecFor st r.id := by
        rw [hv]; exact List.mem_cons_self _ _
      exact (List.mem_filter.mp hm).1
    have hlen : (chunksFor st r.id).length = 1 := hs.2 _ hvmem
    unfold chunksFor at hlen
    rw [hri, hf] at hlen
    simp only [List.length_cons] at hlen
    have hrest : rest = [] := List.length_eq_zero.mp (by omega)
    subst hrest
    exact ⟨r, rfl, hri⟩

/-- C6: deleting a metadata record also deletes the vector-index entry with
its identity within the same atomic unit, and a search on the resulting
state never returns that identity. -/
theorem claim6_delete_removes (st : DBState) (i : Nat) (hs : SyncInv st) :
    (∀ v ∈ (deleteChunk st i).vec_index, v.rowid ≠ i) ∧
    (∀ q k rs, searchSimilar (deleteChunk st i) q k = .ok rs → ∀ r ∈ rs, r.id ≠ i) := by
  constructor
  · rcases chunksFor_sub hs i with hf | ⟨r, hf, hri⟩
    · intro v hv hvi
      have hvec : (deleteChunk st i).vec_index = st.vec_index := by
        simp only [deleteChunk]
        rw [hf]
        rfl
      rw [hvec] at hv
      have hl := hs.2 v hv
      rw [hvi] at hl
      unfold chunksFor at hl
      rw [hf] at hl
      simp at hl
    · intro v hv hvi
      have hvec : (deleteChunk st i).vec_index
          = st.vec_index.filter (fun v => !(v.rowid == r.id)) := by
        simp only [deleteChunk]
        rw [hf]
        rfl
      rw [hvec] at hv
      have h2 := (List.mem_filter.mp hv).2
      rw [hri] at h2
      simp [hvi] at h2
  · intro q k rs h r hr
    obtain ⟨c, hc, hcid, -⟩ := (searchSimilar_ok_mem h hr).1
    have hcf : c ∈ st.code_chunks.filter (fun c => !(c.id == i)) := hc
    have h2 := (List.mem_filter.mp hcf).2
    intro hri
    have hci : c.id = i := hcid.trans hri
    simp [hci] at h2

/-- C7: updating the row with a given identity rewrites the vector index by
deleting the existing entry for that identity and appending a fresh entry
carrying the new embedding, in the same atomic unit — the old entry is
removed outright, never edited in place, and row identities are unchanged. -/
theorem claim7_update_delete_then_insert (st : DBState) (i : Nat) (c : CodeChunkRow)
    (h : st.code_chunks.countP (fun r => r.id == i) = 1) :
    (updateChunk st i c).vec_index
      = st.vec_index.filter (fun v => !(v.rowid == i)) ++ [⟨i, c.embedding⟩] ∧
    (updateChunk st i c).code_chunks.map ChunkRecord.id
      = st.code_chunks.map ChunkRecord.id ∧
    (∀ v ∈ st.vec_index.filter (fun v => !(v.rowid == i)), v.rowid ≠ i) := by
  rw [List.countP_eq_length_filter] at h
  obtain ⟨r, hf⟩ := List.length_eq_one.mp h
  have hrmem : r ∈ st.code_chunks.filter (fun r => r.id == i) := by
    rw [hf]; exact List.mem_cons_self _ _
  have hri : r.id = i := by
    have := (List.mem_filter.mp hrmem).2
    simpa using this
  refine ⟨?_, ?_, ?_⟩
  · show (st.code_chunks.filter (fun r => r.id == i)).foldl _ st.vec_index = _
    rw [hf]
    simp only [List.foldl_cons, List.foldl_nil]
    rw [hri]
  · show (st.code_chunks.map _).map ChunkRecord.id = _
    rw [List.map_map]
    apply List.map_congr_left
    intro a ha
    by_cases hai : (a.id == i) = true
    · simp [Function.comp, hai, applyRow]
    · simp [Function.comp, hai]
  · intro v hv hvi
    have h2 := (List.mem_filter.mp hv).2
    simp [hvi] at h2

/-- One INSERT plus its mirroring trigger preserves well-formedness: the
fresh identity is new to both stores and gets exactly one row in each. -/
theorem WF_insertChunkRow {st : DBState} (h : WF st) (c : CodeChunkRow) :
    WF (insertChunkRow st c).1 := by
  obtain ⟨⟨hs1, hs2⟩, hb1, hb2⟩ := h
  refine ⟨⟨?_, ?_⟩, ?_, ?_⟩
  · intro c' hc'
    have hc'' : c' ∈ st.code_chunks ++
        [⟨st.next_id, c.file_name, c.file_path, c.chunk_text, c.inline_document,
          c.embedding⟩] := hc'
    unfold vecFor
    show ((st.vec_index ++ [(⟨st.next_id, c.embedding⟩ : VecEntry)]).filter
      (fun v => v.rowid == c'.id)) = _
    rw [List.filter_append]
    rcases List.mem_append.mp hc'' with h1 | h1
    · have hlt : c'.id < st.next_id := hb1 c' h1
      have hold := hs1 c' h1
      unfold vecFor at hold
      rw [hold]
      have hne : (((⟨st.next_id, c.embedding⟩ : VecEntry).rowid == c'.id)) = false := by
        simp only [beq_eq_false_iff_ne, ne_eq]
        show ¬ st.next_id = c'.id
        omega
      simp [hne]
    · have hc1 : c' = ⟨st.next_id, c.file_name, c.file_path, c.chunk_text,
        c.inline_document, c.embedding⟩ := by simpa using h1
      subst hc1
      have hnil : st.vec_index.filter (fun v => v.rowid == st.next_id) = [] := by
        rw [List.filter_eq_nil_iff]
        intro v hv
        have := hb2 v hv
        simp only [beq_iff_eq]
        omega
      rw [show ((⟨st.next_id, c.file_name, c.file_path, c.chunk_text, c.inline_document,
        c.embedding⟩ : ChunkRecord).id) = st.next_id from rfl, hnil]
      simp
  · intro v hv
    have hv' : v ∈ st.vec_index ++ [⟨st.next_id, c.embedding⟩] := hv
    unfold chunksFor
    show ((st.code_chunks ++ [(⟨st.next_id, c.file_name, c.file_path, c.chunk_text,
      c.inline_document, c.embedding⟩ : ChunkRecord)]).filter
      (fun c' => c'.id == v.rowid)).length = 1
    rw [List.filter_append, List.length_append]
    rcases List.mem_append.mp hv' with h1 | h1
    · have hlt : v.rowid < st.next_id := hb2 v h1
      have hold := hs2 v h1
      unfold chunksFor at hold
      have hne : (((⟨st.next_id, c.file_name, c.file_path, c.chunk_text,
          c.inline_document, c.embedding⟩ : ChunkRecord).id == v.rowid)) = false := by
        simp only [beq_eq_false_iff_ne, ne_eq]
        show ¬ st.next_id = v.rowid
        omega
      rw [hold]
      simp [hne]
    · have hv1 : v = ⟨st.next_id, c.embedding⟩ := by simpa using h1
      subst hv1
      have hnil : st.code_chunks.filter
          (fun c' => c'.id == (⟨st.next_id, c.embedding⟩ : VecEntry).rowid) = [] := by
        rw [List.filter_eq_nil_iff]
        intro c' hc'
        have := hb1 c' hc'
        simp only [beq_iff_eq]
        show ¬ c'.id = st.next_id
        omega
      rw [hnil]
      simp
  · intro c' hc'
    have hc'' : c' ∈ st.code_chunks ++
        [⟨st.next_id, c.file_name, c.file_path, c.chunk_text, c.inline_document,
          c.embedding⟩] := hc'
    show c'.id < st.next_id + 1
    rcases List.mem_append.mp hc'' with h1 | h1
    · have := hb1 c' h1
      omega
    · have hc1 : c' = ⟨st.next_id, c.file_name, c.file_path, c.chunk_text,
        c.inline_document, c.embedding⟩ := by simpa using h1
      subst hc1
      show st.next_id < st.next_id + 1
      omega
  · intro v hv
    have hv' : v ∈ st.vec_index ++ [⟨st.next_id, c.embedding⟩] := hv
    show v.rowid < st.next_id + 1
    rcases List.mem_append.mp hv' with h1 | h1
    · have := hb2 v h1
      omega
    · have hv1 : v = ⟨st.next_id, c.embedding⟩ := by simpa using h1
      subst hv1
      show st.next_id < st.next_id + 1
      omega

/-- A batch body preserves well-formedness at every prefix. -/
theorem WF_insertBatchRaw {st : DBState} (h : WF st) (b : List CodeChunkRow) :
    WF (insertBatchRaw st b).1 := by
  induction b generalizing st with
  | nil => exact h
  | cons c t ih =>
    cases hd : assertEmbeddingDim c.embedding with
    | error e =>
      simp only [insertBatchRaw, hd]
      exact h
    | ok u =>
      simp only [insertBatchRaw, hd]
      exact ih (WF_insertChunkRow h c)

/-- The batch loop preserves well-formedness (committed batches via the
body, failed batches via rollback). -/
theorem WF_runBatches {st : DBState} (h : WF st) (bs : List (List CodeChunkRow)) :
    WF (runBatches st bs).1 := by
  induction bs generalizing st with
  | nil => exact h
  | cons b bs ih =>
    simp only [runBatches]
    cases ht : runTransaction st (fun s => insertBatchRaw s b) with
    | mk s o =>
      cases o with
      | none =>
        have hts : insertBatchRaw st b = (s, none) := runTransaction_ok st s _ ht
        have hw : WF s := by
          have hwb := WF_insertBatchRaw h b
          rw [hts] at hwb
          exact hwb
        exact ih hw
      | some e =>
        have hs : s = st := runTransaction_err st s _ e ht
        subst hs
        exact h

/-- A single exported insert preserves well-formedness. -/
theorem WF_runInsertChunk {st : DBState} (h : WF st) (c : CodeChunkRow) :
    WF (runInsertChunk st c) := by
  unfold runInsertChunk insertChunk
  cases hd : assertEmbeddingDim c.embedding with
  | error e => exact h
  | ok u => exact WF_insertChunkRow h c

/-- A delete plus its mirroring trigger preserves well-formedness. -/
theorem WF_deleteChunk {st : DBState} (h : WF st) (i : Nat) : WF (deleteChunk st i) := by
  obtain ⟨hsync, hb1, hb2⟩ := h
  rcases chunksFor_sub hsync i with hf | ⟨r, hf, hri⟩
  · have hchunks : st.code_chunks.filter (fun c => !(c.id == i)) = st.code_chunks := by
      rw [List.filter_eq_self]
      intro a ha
      have hne : ¬ (a.id == i) = true := by
        intro hai
        have : a ∈ st.code_chunks.filter (fun c => c.id == i) :=
          List.mem_filter.mpr ⟨ha, hai⟩
        rw [hf] at this
        cases this
      simpa using hne
    have hst : deleteChunk st i = st := by
      simp only [deleteChunk]
      rw [hf, hchunks]
      rfl
    rw [hst]
    exact ⟨hsync, hb1, hb2⟩
  · have hstate : deleteChunk st i = ⟨st.next_id,
        st.code_chunks.filter (fun c => !(c.id == i)),
        st.vec_index.filter (fun v => !(v.rowid == i))⟩ := by
      simp only [deleteChunk]
      rw [hf]
      simp only [List.foldl_cons, List.foldl_nil]
      rw [hri]
    rw [hstate]
    refine ⟨⟨?_, ?_⟩, ?_, ?_⟩
    · intro c' hc'
      have hc'm := List.mem_filter.mp hc'
      have hcne : c'.id ≠ i := by simpa using hc'm.2
      unfold vecFor
      show (st.vec_index.filter (fun v => !(v.rowid == i))).filter
        (fun v => v.rowid == c'.id) = _
      rw [List.filter_filter]
      have hcong : ∀ v ∈ st.vec_index,
          (v.rowid == c'.id && !(v.rowid == i)) = (v.rowid == c'.id) := by
        intro v hv
        by_cases hvc : v.rowid = c'.id
        · simp [hvc, hcne]
        · simp [hvc]
      rw [List.filter_congr hcong]
      have hold := hsync.1 c' hc'm.1
      unfold vecFor at hold
      exact hold
    · intro v hv
      have hvm := List.mem_filter.mp hv
      have hvne : v.rowid ≠ i := by simpa using hvm.2
      unfold chunksFor
      show ((st.code_chunks.filter (fun c => !(c.id == i))).filter
        (fun c => c.id == v.rowid)).length = 1
      rw [List.filter_filter]
      have hcong : ∀ a ∈ st.code_chunks,
          (a.id == v.rowid && !(a.id == i)) = (a.id == v.rowid) := by
        intro a ha
        by_cases hav : a.id = v.rowid
        · simp [hav, hvne]
        · simp [hav]
      rw [List.filter_congr hcong]
      exact hsync.2 v hvm.1
    · intro c' hc'
      exact hb1 c' (List.mem_filter.mp hc').1
    · intro v hv
      exact hb2 v (List.mem_filter.mp hv).1

/-- An update plus its delete-then-insert trigger preserves
well-formedness. -/
theorem WF_updateChunk {st : DBState} (h : WF st) (i : Nat) (c : CodeChunkRow) :
    WF (updateChunk st i c) := by
  obtain ⟨hsync, hb1, hb2⟩ := h
  rcases chunksFor_sub hsync i with hf | ⟨r, hf, hri⟩
  · have hmap : st.code_chunks.map
        (fun a => if a.id == i then applyRow a c else a) = st.code_chunks := by
      have hcong : ∀ a ∈ st.code_chunks,
          (if a.id == i then applyRow a c else a) = id a := by
        intro a ha
        have hne : ¬ (a.id == i) = true := by
          intro hai
          have : a ∈ st.code_chunks.filter (fun c => c.id == i) :=
            List.mem_filter.mpr ⟨ha, hai⟩
          rw [hf] at this
          cases this
        simp [hne]
      rw [List.map_congr_left hcong, List.map_id]
    have hst : updateChunk st i c = st := by
      simp only [updateChunk]
      rw [hf, hmap]
      rfl
    rw [hst]
    exact ⟨hsync, hb1, hb2⟩
  · have huniq : ∀ a ∈ st.code_chunks, a.id = i → a = r := by
      intro a ha hai
      have : a ∈ st.code_chunks.filter (fun c => c.id == i) :=
        List.mem_filter.mpr ⟨ha, by simp [hai]⟩
      rw [hf] at this
      simpa using this
    have hrmem : r ∈ st.code_chunks := by
      have : r ∈ st.code_chunks.filter (fun c => c.id == i) := by
        rw [hf]
        exact List.mem_cons_self _ _
      exact (List.mem_filter.mp this).1
    have hupd_id : ∀ a : ChunkRecord,
        (if a.id == i then applyRow a c else a).id = a.id := by
      intro a
      by_cases hai : (a.id == i) = true
      · simp [hai, applyRow]
      · simp [hai]
    have hstate : updateChunk st i c = ⟨st.next_id,
        st.code_chunks.map (fun a => if a.id == i then applyRow a c else a),
        st.vec_index.filter (fun v => !(v.rowid == i)) ++ [⟨i, c.embedding⟩]⟩ := by
      simp only [updateChunk]
      rw [hf]
      simp only [List.foldl_cons, List.foldl_nil]
      rw [hri]
    rw [hstate]
    refine ⟨⟨?_, ?_⟩, ?_, ?_⟩
    · intro c' hc'
      obtain ⟨a, ha, hupd⟩ := List.mem_map.mp hc'
      unfold vecFor
      show ((st.vec_index.filter (fun v => !(v.rowid == i))
          ++ [(⟨i, c.embedding⟩ : VecEntry)]).filter (fun v => v.rowid == c'.id)) = _
      rw [List.filter_append, List.filter_filter]
      by_cases hai : a.id = i
      · have har : a = r := huniq a ha hai
        have hc'' : c' = applyRow r c := by
          rw [← hupd, har]
          simp [har ▸ hai]
        have hcid : c'.id = i := by
          rw [hc'']
          exact hri
        rw [hcid]
        have hnil : st.vec_index.filter (fun v => v.rowid == i && !(v.rowid == i)) = [] := by
          rw [List.filter_eq_nil_iff]
          intro v hv
          by_cases hvi : v.rowid = i <;> simp [hvi]
        rw [hnil]
        simp [hc'', applyRow]
      · have hc'' : c' = a := by
          rw [← hupd]
          simp [hai]
        subst hc''
        have hcong : ∀ v ∈ st.vec_index,
            (v.rowid == c'.id && !(v.rowid == i)) = (v.rowid == c'.id) := by
          intro v hv
          by_cases hvc : v.rowid = c'.id
          · simp [hvc, hai]
          · simp [hvc]
        rw [List.filter_congr hcong]
        have hold := hsync.1 c' ha
        unfold vecFor at hold
        rw [hold]
        have hne : ((⟨i, c.embedding⟩ : VecEntry).rowid == c'.id) = false := by
          simp only [beq_eq_false_iff_ne, ne_eq]
          show ¬ i = c'.id
          exact fun he => hai he.symm
        simp [hne]
    · intro v hv
      rcases List.mem_append.mp hv with h1 | h1
      · have hvm := List.mem_filter.mp h1
        have hvne : v.rowid ≠ i := by simpa using hvm.2
        unfold chunksFor
        show ((st.code_chunks.map (fun a => if a.id == i then applyRow a c else a)).filter
          (fun a => a.id == v.rowid)).length = 1
        rw [List.filter_map, List.length_map]
        have hcong : ∀ a ∈ st.code_chunks,
            ((fun a => a.id == v.rowid) ∘ (fun a => if a.id == i then applyRow a c else a)) a
              = (a.id == v.rowid) := by
          intro a ha
          simp only [Function.comp]
          rw [hupd_id a]
        rw [List.filter_congr hcong]
        exact hsync.2 v hvm.1
      · have hv1 : v = ⟨i, c.embedding⟩ := by simpa using h1
        subst hv1
        unfold chunksFor
        show ((st.code_chunks.map (fun a => if a.id == i then applyRow a c else a)).filter
          (fun a => a.id == i)).length = 1
        rw [List.filter_map, List.length_map]
        have hcong : ∀ a ∈ st.code_chunks,
            ((fun a => a.id == i) ∘ (fun a => if a.id == i then applyRow a c else a)) a
              = (a.id == i) := by
          intro a ha
          simp only [Function.comp]
          rw [hupd_id a]
        rw [List.filter_congr hcong, hf]
        rfl
    · intro c' hc'
      obtain ⟨a, ha, hupd⟩ := List.mem_map.mp hc'
      show c'.id < st.next_id
      rw [← hupd, hupd_id a]
      exact hb1 a ha
    · intro v hv
      rcases List.mem_append.mp hv with h1 | h1
      · exact hb2 v (List.mem_filter.mp h1).1
      · have hv1 : v = ⟨i, c.embedding⟩ := by simpa using h1
        subst hv1
        show i < st.next_id
        rw [← hri]
        exact hb1 r hrmem

/-- Every completed transaction preserves well-formedness. -/
theorem WF_applyOp {st : DBState} (h : WF st) (op : Op) : WF (applyOp st op) := by
  cases op with
  | insertOne c => exact WF_runInsertChunk h c
  | bulkInsert cs n => exact WF_runBatches h (chunksOf n cs)
  | deleteRow i => exact WF_deleteChunk h i
  | updateRow i c => exact WF_updateChunk h i c

/-- The fresh database is well-formed. -/
theorem WF_initialState : WF initialState := by
  refine ⟨⟨?_, ?_⟩, ?_, ?_⟩ <;> intro x hx <;> cases hx

/-- C2: after any sequence of completed transactions from a fresh database
(single inserts, bulk inserts with any batch size, deletes, updates), the
metadata table and the vector index are in bijective correspondence: every
chunk row has exactly one vector-index entry with the same identity and
embedding, and every vector-index entry has exactly one chunk row with its
identity. -/
theorem claim2_bijection_invariant (ops : List Op) : SyncInv (applyOps ops) := by
  suffices hwf : ∀ st, WF st → WF (ops.foldl applyOp st) from
    (hwf initialState WF_initialState).1
  intro st
  induction ops generalizing st with
  | nil => exact id
  | cons op ops ih => exact fun h => ih _ (WF_applyOp h op)



/-- Witness for C6 on a concrete one-row well-formed state. -/
theorem claim6_witness :
    (∀ v ∈ (deleteChunk syncState1 1).vec_index, v.rowid ≠ 1) ∧
    (∀ q k rs, searchSimilar (deleteChunk syncState1 1) q k = .ok rs →
      ∀ r ∈ rs, r.id ≠ 1) :=
  claim6_delete_removes syncState1 1 (by unfold SyncInv; decide)

/-- Witness for C7 on a concrete one-row state. -/
theorem claim7_witness :
    (updateChunk syncState1 1 updRow).vec_index
      = syncState1.vec_index.filter (fun v => !(v.rowid == 1)) ++ [⟨1, updRow.embedding⟩] ∧
    (updateChunk syncState1 1 updRow).code_chunks.map ChunkRecord.id
      = syncState1.code_chunks.map ChunkRecord.id ∧
    (∀ v ∈ syncState1.vec_index.filter (fun v => !(v.rowid == 1)), v.rowid ≠ 1) :=
  claim7_update_delete_then_insert syncState1 1 updRow (by decide)
